import Mathlib

/-!
Shallow embedding of `update_astronomy_data.py` (AstroTrack).

Text is modelled as `List Char`.  The regular-expression steps of
`parse_vector_data` are embedded as executable backtracking matchers that
follow Python `re.search` semantics on the concrete patterns used by the
script, numbers are parsed into exact rationals, and the aggregation loop
of `main` is a fold over the static body list with the HTTP transport
abstracted as an environment `List Char → FetchOutcome`.
-/

/-- Whitespace, as matched by Python's `\s` (and stripped by `str.strip()`). -/
def isSpace (c : Char) : Bool :=
  c = ' ' || c = '\t' || c = '\n' || c = '\r' || c = '\x0b' || c = '\x0c' ||
  ('\x1c' ≤ c && c ≤ '\x1f') || c = '\x85' || c = '\xa0' || c = ' ' ||
  (' ' ≤ c && c ≤ ' ') || c = ' ' || c = ' ' ||
  c = ' ' || c = ' ' || c = '　'

/-- ASCII digit, as matched by `[0-9]` in the script's regexes. -/
def isDigit (c : Char) : Bool := '0' ≤ c && c ≤ '9'

/-- Does `cs` start with the literal `p`?  (Python: matching a literal at a
position.) -/
def startsWith : List Char → List Char → Bool
  | [], _ => true
  | _ :: _, [] => false
  | p :: ps, c :: cs => p == c && startsWith ps cs

/-- Substring containment, Python's `pat in s`. -/
def containsSub (pat : List Char) : List Char → Bool
  | [] => startsWith pat []
  | c :: cs => startsWith pat (c :: cs) || containsSub pat cs

/-- The literal `$$SOE`. -/
def soeChars : List Char := "$$SOE".data

/-- The literal `$$EOE`. -/
def eoeChars : List Char := "$$EOE".data

/-- The literal `\n$$EOE`, i.e. what must follow the captured block in the
regex `\$\$SOE\s*\n(.*?)\n\$\$EOE`. -/
def eoeTail : List Char := '\n' :: eoeChars

/-- Lazy `(.*?)\n\$\$EOE` with `re.DOTALL`: return the shortest prefix `m`
of `cs` such that `m` is immediately followed by `\n$$EOE`. -/
def findCapture : List Char → Option (List Char)
  | [] => none
  | c :: cs =>
    if startsWith eoeTail (c :: cs) then some []
    else (findCapture cs).map (fun m => c :: m)

/-- Length of the maximal whitespace run at the head of `cs`
(the greedy first attempt of `\s*`). -/
def wsPrefixLen (cs : List Char) : Nat := (cs.takeWhile isSpace).length

/-- Attempt `\s*\n(.*?)\n\$\$EOE` on `cs` with the `\s*` part fixed to
length `k`: `cs.take k` must be whitespace followed by a newline, after
which the lazy capture runs. -/
def tryWsAt (cs : List Char) (k : Nat) : Option (List Char) :=
  if (cs.take k).all isSpace = true ∧ cs[k]? = some '\n' then
    findCapture (cs.drop (k + 1))
  else none

/-- Greedy `\s*` with backtracking: try `k0, k0 - 1, ..., 0` in that order
(`k0` starts at the maximal whitespace-run length). -/
def tryWs (cs : List Char) : Nat → Option (List Char)
  | 0 => tryWsAt cs 0
  | k + 1 =>
    match tryWsAt cs (k + 1) with
    | some m => some m
    | none => tryWs cs k

/-- Attempt the whole pattern `\$\$SOE\s*\n(.*?)\n\$\$EOE` anchored at the
start of `cs`. -/
def soeAt (cs : List Char) : Option (List Char) :=
  if startsWith soeChars cs then
    tryWs (cs.drop soeChars.length) (wsPrefixLen (cs.drop soeChars.length))
  else none

/-- `re.search(r'\$\$SOE\s*\n(.*?)\n\$\$EOE', s, re.DOTALL)`: try each start
position left to right, returning the capture group of the first position
that matches. -/
def soeSearch : List Char → Option (List Char)
  | [] => none
  | c :: cs =>
    match soeAt (c :: cs) with
    | some m => some m
    | none => soeSearch cs

/-- Python `str.strip()`: drop whitespace at both ends. -/
def strip (cs : List Char) : List Char :=
  ((cs.dropWhile isSpace).reverse.dropWhile isSpace).reverse

/-- Python `str.split('\n')`: split at every newline, keeping empty parts. -/
def splitNl : List Char → List (List Char)
  | [] => [[]]
  | c :: cs =>
    if c = '\n' then [] :: splitNl cs
    else
      match splitNl cs with
      | [] => [[c]]
      | l :: ls => (c :: l) :: ls

/-- The literal `X =`. -/
def xLabel : List Char := "X =".data

/-- The literal `Y =`. -/
def yLabel : List Char := "Y =".data

/-- The literal `Z =`. -/
def zLabel : List Char := "Z =".data

/-- The test `'X =' in line and 'Y =' in line and 'Z =' in line`. -/
def candidateLine (l : List Char) : Bool :=
  containsSub xLabel l && containsSub yLabel l && containsSub zLabel l

/-- Mantissa part `[0-9]*\.?[0-9]+` of the numeric regex, with Python's
greedy backtracking semantics; returns the matched characters and the rest
of the input, or `none` when no match is possible at this position. -/
def mantissa (cs : List Char) : Option (List Char × List Char) :=
  let d1 := cs.takeWhile isDigit
  let r1 := cs.dropWhile isDigit
  match r1 with
  | '.' :: r2 =>
    let d2 := r2.takeWhile isDigit
    if d2 ≠ [] then some (d1 ++ '.' :: d2, r2.dropWhile isDigit)
    else if d1 ≠ [] then some (d1, r1) else none
  | _ => if d1 ≠ [] then some (d1, r1) else none

/-- Optional exponent `(?:[eE][-+]?[0-9]+)?`: returns the matched
characters (possibly `[]`) and the rest. -/
def expPart (cs : List Char) : List Char × List Char :=
  match cs with
  | [] => ([], [])
  | c :: rest =>
    if c = 'e' ∨ c = 'E' then
      let sgnRest : List Char × List Char :=
        match rest with
        | d :: rest2 => if d = '-' ∨ d = '+' then ([d], rest2) else ([], d :: rest2)
        | [] => ([], [])
      let ds := sgnRest.2.takeWhile isDigit
      if ds ≠ [] then (c :: (sgnRest.1 ++ ds), sgnRest.2.dropWhile isDigit)
      else ([], c :: rest)
    else ([], c :: rest)

/-- The numeric token `[-+]?[0-9]*\.?[0-9]+(?:[eE][-+]?[0-9]+)?` anchored at
the start of `cs` (the capture group of the coordinate regexes). -/
def matchNum (cs : List Char) : Option (List Char) :=
  let sgnRest : List Char × List Char :=
    match cs with
    | c :: rest => if c = '-' ∨ c = '+' then ([c], rest) else ([], c :: rest)
    | [] => ([], [])
  match mantissa sgnRest.2 with
  | none => none
  | some manRest =>
    let ex := expPart manRest.2
    some (sgnRest.1 ++ manRest.1 ++ ex.1)

/-- Attempt `LABEL\s*=\s*(NUM)` anchored at the start of `cs`
(no useful backtracking exists between the pieces, since `=` and the first
token character are never whitespace). -/
def labelMatchAt (lab : Char) (cs : List Char) : Option (List Char) :=
  match cs with
  | [] => none
  | c :: rest =>
    if c = lab then
      match rest.dropWhile isSpace with
      | '=' :: r2 => matchNum (r2.dropWhile isSpace)
      | _ => none
    else none

/-- `re.search(r'LAB\s*=\s*(NUM)', line)`: leftmost match wins. -/
def labelSearch (lab : Char) : List Char → Option (List Char)
  | [] => none
  | c :: cs =>
    match labelMatchAt lab (c :: cs) with
    | some t => some t
    | none => labelSearch lab cs

/-- Numeric value of a digit string. -/
def digitsVal (ds : List Char) : Nat :=
  ds.foldl (fun a c => 10 * a + (c.toNat - '0'.toNat)) 0

/-- Exact rational value of a matched numeric token, i.e. Python
`float(tok)` with the rounding to binary abstracted away (the token grammar
guarantees `float` never raises).  For a token with sign `s`, integer part
`ip`, fraction part `fp` and exponent `e`, the value is
`s * (ip.fp) * 10 ^ e`, computed here as an integer mantissa divided by a
power of ten. -/
def tokenToRat (t : List Char) : ℚ :=
  let sgnRest : Int × List Char :=
    match t with
    | '-' :: r => (-1, r)
    | '+' :: r => (1, r)
    | r => (1, r)
  let r := sgnRest.2
  let ip := r.takeWhile isDigit
  let r1 := r.dropWhile isDigit
  let fpRest : List Char × List Char :=
    match r1 with
    | '.' :: r2 => (r2.takeWhile isDigit, r2.dropWhile isDigit)
    | _ => ([], r1)
  let fp := fpRest.1
  let eVal : Int :=
    match fpRest.2 with
    | [] => 0
    | c :: r3 =>
      if c = 'e' ∨ c = 'E' then
        match r3 with
        | '-' :: r4 => -(digitsVal (r4.takeWhile isDigit) : Int)
        | '+' :: r4 => (digitsVal (r4.takeWhile isDigit) : Int)
        | r4 => (digitsVal (r4.takeWhile isDigit) : Int)
      else 0
  let mant : Int :=
    sgnRest.1 * ((digitsVal ip : Int) * (10 : Int) ^ fp.length + (digitsVal fp : Int))
  match eVal - (fp.length : Int) with
  | Int.ofNat k => mkRat (mant * (10 : Int) ^ k) 1
  | Int.negSucc k => mkRat mant ((10 : Nat) ^ (k + 1))

/-- A heliocentric position vector, components as exact rationals. -/
structure PositionVector where
  x : ℚ
  y : ℚ
  z : ℚ
deriving DecidableEq

/-- The three `re.search` calls for `X`, `Y`, `Z` plus the
`if x_match and y_match and z_match` guard of `parse_vector_data`. -/
def extract3 (line : List Char) : Option PositionVector :=
  match labelSearch 'X' line, labelSearch 'Y' line, labelSearch 'Z' line with
  | some tx, some ty, some tz => some ⟨tokenToRat tx, tokenToRat ty, tokenToRat tz⟩
  | _, _, _ => none

/-- One iteration of the line loop of `parse_vector_data`: strip the line,
skip it when empty or a `*` comment, otherwise attempt coordinate
extraction when it contains all three labels. -/
def lineResult (l : List Char) : Option PositionVector :=
  let s := strip l
  if s = [] ∨ s.head? = some '*' then none
  else if candidateLine s then extract3 s
  else none

/-- The `for line in lines` loop: first line yielding a vector wins; a line
that yields nothing (skipped, not a candidate, or failed extraction) lets
the loop continue. -/
def scanLines : List (List Char) → Option PositionVector
  | [] => none
  | l :: ls =>
    match lineResult l with
    | some v => some v
    | none => scanLines ls

/-- `parse_vector_data(response_text)`: locate the `$$SOE`/`$$EOE` block,
strip it, split into lines and scan; every failure path returns `none`. -/
def parse_vector_data (s : List Char) : Option PositionVector :=
  match soeSearch s with
  | none => none
  | some m => scanLines (splitNl (strip m))

/-- The list of lines the line loop of `parse_vector_data` iterates over
(empty when the delimiter regex fails). -/
def blockLines (s : List Char) : List (List Char) :=
  match soeSearch s with
  | none => []
  | some m => splitNl (strip m)

/-- Outcome of the HTTP transport for one body: a JSON envelope whose
`result` field is the given text, a `requests.exceptions.RequestException`
whose `str` is the given message, or any other exception. -/
inductive FetchOutcome where
  | response : List Char → FetchOutcome
  | requestError : List Char → FetchOutcome
  | otherError : List Char → FetchOutcome
deriving DecidableEq

/-- The success dict `{id, name, type: "planet", x, y, z}` returned by
`fetch_horizons_data`. -/
structure BodyOk where
  id : List Char
  name : List Char
  vec : PositionVector
deriving DecidableEq

/-- The failure dict `{id, name, error}` returned by
`fetch_horizons_data`. -/
structure BodyErr where
  id : List Char
  name : List Char
  error : List Char
deriving DecidableEq

/-- A per-body result: exactly one of the two dict shapes
(the code distinguishes them by `"error" in body_data`). -/
inductive BodyResult where
  | ok : BodyOk → BodyResult
  | err : BodyErr → BodyResult
deriving DecidableEq

/-- `fetch_horizons_data(body_id, body_name)` with the transport abstracted
as `env`: on a response, parse the `result` text and produce the success
dict or the fixed-message failure dict; on any caught exception produce a
failure dict carrying `str(e)`. -/
def fetch_horizons_data (env : List Char → FetchOutcome)
    (body_id body_name : List Char) : BodyResult :=
  match env body_id with
  | FetchOutcome.response txt =>
    match parse_vector_data txt with
    | some v => BodyResult.ok ⟨body_id, body_name, v⟩
    | none => BodyResult.err ⟨body_id, body_name, "Could not parse vector data".data⟩
  | FetchOutcome.requestError msg => BodyResult.err ⟨body_id, body_name, msg⟩
  | FetchOutcome.otherError msg => BodyResult.err ⟨body_id, body_name, msg⟩

/-- The `"error" in body_data` test of `main`. -/
def isErr : BodyResult → Bool
  | BodyResult.ok _ => false
  | BodyResult.err _ => true

/-- The `id` field present in both result shapes. -/
def resultId : BodyResult → List Char
  | BodyResult.ok b => b.id
  | BodyResult.err b => b.id

/-- The static `CELESTIAL_BODIES` configuration, in insertion order
(Python dicts iterate in insertion order). -/
def CELESTIAL_BODIES : List (List Char × List Char) :=
  [("199".data, "Mercury".data), ("299".data, "Venus".data),
   ("399".data, "Earth".data), ("499".data, "Mars".data),
   ("599".data, "Jupiter".data), ("699".data, "Saturn".data),
   ("799".data, "Uranus".data), ("899".data, "Neptune".data)]

/-- One body's fetch, uncurried over a configuration pair. -/
def fetchBody (env : List Char → FetchOutcome) (b : List Char × List Char) : BodyResult :=
  fetch_horizons_data env b.1 b.2

/-- The body of the `for body_id, body_name in CELESTIAL_BODIES.items()`
loop: append the result to `failed` when it carries an `error` key, to
`bodies` otherwise. -/
def aggStep (env : List Char → FetchOutcome)
    (acc : List BodyResult × List BodyResult) (b : List Char × List Char) :
    List BodyResult × List BodyResult :=
  let r := fetchBody env b
  if isErr r then (acc.1, acc.2 ++ [r]) else (acc.1 ++ [r], acc.2)

/-- The whole aggregation loop of `main`: `(bodies, failed)` after every
configured body has been attempted in configuration order. -/
def aggregate (env : List Char → FetchOutcome) : List BodyResult × List BodyResult :=
  CELESTIAL_BODIES.foldl (aggStep env) ([], [])

/-- Outcome of the file write in `save_data`: the `json.dump` either
completes or raises an `IOError` with the given message. -/
inductive WriteOutcome where
  | written : WriteOutcome
  | ioError : List Char → WriteOutcome
deriving DecidableEq

/-- `save_data(data)`: `True` when the write completes, `False` when an
`IOError` is caught. -/
def save_data : WriteOutcome → Bool
  | WriteOutcome.written => true
  | WriteOutcome.ioError _ => false

/-- `main()`: run the aggregation loop, then `sys.exit(0)` if `save_data`
returned `True` and `sys.exit(1)` otherwise.  The returned pair is the
`(bodies, failed)` content of the snapshot and the process exit code. -/
def main_run (env : List Char → FetchOutcome) (w : WriteOutcome) :
    (List BodyResult × List BodyResult) × Nat :=
  (aggregate env, if save_data w then 0 else 1)

/-- Environment for C5's witness: every body's fetch raises a request
exception whose string is `timeout`. -/
def env_all_timeout : List Char → FetchOutcome :=
  fun _ => FetchOutcome.requestError "timeout".data

/-- Environment for C5's witness: body `199` raises an unexpected
exception, every other body a request exception. -/
def env_one_boom : List Char → FetchOutcome :=
  fun i =>
    if i = "199".data then FetchOutcome.otherError "boom".data
    else FetchOutcome.requestError "timeout".data

/-- Environment for C9: the HTTP fetch succeeds but the response's result
text is empty, so the parser yields the sentinel. -/
def env_parse_fail : List Char → FetchOutcome :=
  fun _ => FetchOutcome.response []

/-- A text admits the delimiter pattern `\$\$SOE\s*\n(.*?)\n\$\$EOE` iff it
decomposes as: anything, `$$SOE`, a whitespace run, a newline, anything, a
newline, `$$EOE`, anything. -/
def blockDecomp (s : List Char) : Prop :=
  ∃ a w m c, w.all isSpace = true ∧
    s = a ++ (soeChars ++ (w ++ '\n' :: (m ++ eoeTail ++ c)))

theorem startsWith_eq_true : ∀ {p cs : List Char}, startsWith p cs = true →
    ∃ t, cs = p ++ t := by
  intro p
  induction p with
  | nil => intro cs _; exact ⟨cs, rfl⟩
  | cons x ps ih =>
    intro cs h
    cases cs with
    | nil => simp [startsWith] at h
    | cons c cs' =>
      rw [startsWith, Bool.and_eq_true, beq_iff_eq] at h
      obtain ⟨t, ht⟩ := ih h.2
      exact ⟨t, by rw [h.1, List.cons_append, ht]⟩

theorem startsWith_append : ∀ (p t : List Char), startsWith p (p ++ t) = true := by
  intro p
  induction p with
  | nil => intro t; rfl
  | cons x ps ih => intro t; rw [List.cons_append, startsWith, ih t, beq_self_eq_true]; rfl

theorem containsSub_of_startsWith {p s : List Char} (h : startsWith p s = true) :
    containsSub p s = true := by
  cases s with
  | nil =>
    cases p with
    | nil => rfl
    | cons x ps => simp [startsWith] at h
  | cons c cs => rw [containsSub, h, Bool.true_or]

theorem containsSub_append_left {p s : List Char} (a : List Char)
    (h : containsSub p s = true) : containsSub p (a ++ s) = true := by
  induction a with
  | nil => exact h
  | cons c a ih => rw [List.cons_append, containsSub, ih, Bool.or_true]

theorem containsSub_of_decomp (p a b : List Char) :
    containsSub p (a ++ (p ++ b)) = true :=
  containsSub_append_left a (containsSub_of_startsWith (startsWith_append p b))

theorem take_len_append (w t : List Char) : (w ++ t).take w.length = w := by
  induction w with
  | nil => simp
  | cons c w ih => simp [ih]

theorem drop_len_append (w t : List Char) : (w ++ t).drop w.length = t := by
  induction w with
  | nil => simp
  | cons c w ih => simp [ih]

theorem getElem?_len_append (w : List Char) (c : Char) (t : List Char) :
    (w ++ c :: t)[w.length]? = some c := by
  induction w with
  | nil => simp
  | cons a w ih => simpa using ih

theorem drop_len_succ_append (w : List Char) (c : Char) (t : List Char) :
    (w ++ c :: t).drop (w.length + 1) = t := by
  induction w with
  | nil => simp
  | cons a w ih => simp [ih]

theorem drop_of_getElem? : ∀ (k : Nat) (cs : List Char) (c : Char),
    cs[k]? = some c → cs.drop k = c :: cs.drop (k + 1) := by
  intro k
  induction k with
  | zero =>
    intro cs c h
    cases cs with
    | nil => simp at h
    | cons a cs' => simp_all
  | succ k ih =>
    intro cs c h
    cases cs with
    | nil => simp at h
    | cons a cs' =>
      rw [List.getElem?_cons_succ] at h
      simpa using ih cs' c h

theorem takeWhile_space_append {w : List Char} (hw : w.all isSpace = true)
    (t : List Char) : (w ++ t).takeWhile isSpace = w ++ t.takeWhile isSpace := by
  induction w with
  | nil => simp
  | cons c w ih =>
    rw [List.all_cons, Bool.and_eq_true] at hw
    rw [List.cons_append, List.takeWhile_cons, hw.1]
    simp [ih hw.2]

theorem le_wsPrefixLen {w : List Char} (hw : w.all isSpace = true) (t : List Char) :
    w.length ≤ wsPrefixLen (w ++ t) := by
  unfold wsPrefixLen
  rw [takeWhile_space_append hw, List.length_append]
  exact Nat.le_add_right _ _

theorem findCapture_eq_some : ∀ {cs m : List Char}, findCapture cs = some m →
    ∃ c, cs = m ++ eoeTail ++ c := by
  intro cs
  induction cs with
  | nil => intro m h; simp [findCapture] at h
  | cons c cs ih =>
    intro m h
    by_cases hp : startsWith eoeTail (c :: cs) = true
    · rw [findCapture, if_pos hp] at h
      cases h
      obtain ⟨t, ht⟩ := startsWith_eq_true hp
      exact ⟨t, by simp [ht]⟩
    · rw [findCapture, if_neg hp] at h
      cases hfc : findCapture cs with
      | none => rw [hfc] at h; simp at h
      | some m' =>
        rw [hfc] at h
        simp at h
        obtain ⟨d, hd⟩ := ih hfc
        exact ⟨d, by rw [← h]; simp [hd, List.append_assoc]⟩

theorem findCapture_eq_none : ∀ {cs : List Char}, findCapture cs = none →
    ∀ m c, cs ≠ m ++ eoeTail ++ c := by
  intro cs
  induction cs with
  | nil =>
    intro _ m c heq
    have hlen := congrArg List.length heq
    have h6 : eoeTail.length = 6 := rfl
    simp only [List.length_append, List.length_nil, h6] at hlen
    omega
  | cons c cs ih =>
    intro h m d heq
    by_cases hp : startsWith eoeTail (c :: cs) = true
    · rw [findCapture, if_pos hp] at h
      simp at h
    · rw [findCapture, if_neg hp] at h
      have hfc : findCapture cs = none := by
        cases hfc : findCapture cs with
        | none => rfl
        | some m' => rw [hfc] at h; simp at h
      cases m with
      | nil =>
        rw [List.nil_append] at heq
        exact hp (by rw [heq]; exact startsWith_append eoeTail d)
      | cons m0 m' =>
        simp only [List.cons_append] at heq
        rw [List.cons_eq_cons] at heq
        exact ih hfc m' d heq.2

theorem tryWs_eq_some : ∀ {k0 : Nat} {cs m : List Char}, tryWs cs k0 = some m →
    ∃ k, k ≤ k0 ∧ (cs.take k).all isSpace = true ∧ cs[k]? = some '\n' ∧
      findCapture (cs.drop (k + 1)) = some m := by
  intro k0
  induction k0 with
  | zero =>
    intro cs m h
    rw [tryWs] at h
    by_cases hc : (cs.take 0).all isSpace = true ∧ cs[0]? = some '\n'
    · rw [tryWsAt, if_pos hc] at h
      exact ⟨0, Nat.le_refl 0, hc.1, hc.2, h⟩
    · rw [tryWsAt, if_neg hc] at h
      simp at h
  | succ k ih =>
    intro cs m h
    rw [tryWs] at h
    cases ht : tryWsAt cs (k + 1) with
    | some m' =>
      rw [ht] at h
      simp at h
      by_cases hc : (cs.take (k + 1)).all isSpace = true ∧ cs[k + 1]? = some '\n'
      · rw [tryWsAt, if_pos hc] at ht
        exact ⟨k + 1, Nat.le_refl _, hc.1, hc.2, by rw [ht, h]⟩
      · rw [tryWsAt, if_neg hc] at ht
        simp at ht
    | none =>
      rw [ht] at h
      simp at h
      obtain ⟨k', hk', h1, h2, h3⟩ := ih h
      exact ⟨k', Nat.le_succ_of_le hk', h1, h2, h3⟩

theorem tryWs_eq_none : ∀ {k0 : Nat} {cs : List Char}, tryWs cs k0 = none →
    ∀ k, k ≤ k0 → tryWsAt cs k = none := by
  intro k0
  induction k0 with
  | zero =>
    intro cs h k hk
    rw [Nat.le_zero] at hk
    subst hk
    rw [tryWs] at h
    exact h
  | succ k0 ih =>
    intro cs h k hk
    rw [tryWs] at h
    cases ht : tryWsAt cs (k0 + 1) with
    | some m' => rw [ht] at h; simp at h
    | none =>
      rw [ht] at h
      simp at h
      by_cases hk1 : k = k0 + 1
      · subst hk1; exact ht
      · exact ih h k (Nat.lt_succ_iff.mp (Nat.lt_of_le_of_ne hk hk1))

theorem soeAt_eq_some {cs m : List Char} (h : soeAt cs = some m) :
    ∃ w c, w.all isSpace = true ∧
      cs = soeChars ++ (w ++ '\n' :: (m ++ eoeTail ++ c)) := by
  unfold soeAt at h
  by_cases hp : startsWith soeChars cs = true
  · rw [if_pos hp] at h
    obtain ⟨t, ht⟩ := startsWith_eq_true hp
    have hdrop : cs.drop soeChars.length = t := by rw [ht]; exact drop_len_append _ _
    rw [hdrop] at h
    obtain ⟨k, hk, hsp, hnl, hfc⟩ := tryWs_eq_some h
    obtain ⟨d, hd⟩ := findCapture_eq_some hfc
    refine ⟨t.take k, d, hsp, ?_⟩
    rw [ht]
    congr 1
    calc t = t.take k ++ t.drop k := (List.take_append_drop k t).symm
      _ = t.take k ++ ('\n' :: t.drop (k + 1)) := by rw [drop_of_getElem? k t '\n' hnl]
      _ = t.take k ++ ('\n' :: (m ++ eoeTail ++ d)) := by rw [hd]
  · rw [if_neg hp] at h
    simp at h

theorem soeAt_eq_none {cs : List Char} (h : soeAt cs = none) :
    ∀ w m c, w.all isSpace = true →
      cs ≠ soeChars ++ (w ++ '\n' :: (m ++ eoeTail ++ c)) := by
  intro w m c hw heq
  rw [heq] at h
  unfold soeAt at h
  rw [if_pos (startsWith_append _ _), drop_len_append] at h
  have hat := tryWs_eq_none h w.length (le_wsPrefixLen hw _)
  have h1 : ((w ++ '\n' :: (m ++ eoeTail ++ c)).take w.length).all isSpace = true := by
    rw [take_len_append]; exact hw
  have h2 : (w ++ '\n' :: (m ++ eoeTail ++ c))[w.length]? = some '\n' :=
    getElem?_len_append _ _ _
  have h3 : (w ++ '\n' :: (m ++ eoeTail ++ c)).drop (w.length + 1) = m ++ eoeTail ++ c :=
    drop_len_succ_append _ _ _
  rw [tryWsAt, if_pos ⟨h1, h2⟩, h3] at hat
  exact findCapture_eq_none hat m c rfl

theorem soeSearch_some_blockDecomp : ∀ {s m : List Char},
    soeSearch s = some m → blockDecomp s := by
  intro s
  induction s with
  | nil => intro m h; simp [soeSearch] at h
  | cons c s' ih =>
    intro m h
    rw [soeSearch] at h
    cases ha : soeAt (c :: s') with
    | some m' =>
      obtain ⟨w, d, hw, heq⟩ := soeAt_eq_some ha
      exact ⟨[], w, m', d, hw, by rw [List.nil_append]; exact heq⟩
    | none =>
      rw [ha] at h
      simp at h
      obtain ⟨a, w, mm, d, hw, heq⟩ := ih h
      exact ⟨c :: a, w, mm, d, hw, by rw [List.cons_append, ← heq]⟩

theorem soeSearch_none_blockDecomp : ∀ {s : List Char},
    soeSearch s = none → ¬ blockDecomp s := by
  intro s
  induction s with
  | nil =>
    intro _ hbd
    obtain ⟨a, w, m, d, hw, heq⟩ := hbd
    have hlen := congrArg List.length heq
    have h5 : soeChars.length = 5 := rfl
    have h6 : eoeTail.length = 6 := rfl
    simp only [List.length_nil, List.length_append, List.length_cons, h5, h6] at hlen
    omega
  | cons c s' ih =>
    intro h hbd
    rw [soeSearch] at h
    have ha : soeAt (c :: s') = none := by
      cases ha : soeAt (c :: s') with
      | some m' => rw [ha] at h; simp at h
      | none => rfl
    rw [ha] at h
    simp at h
    obtain ⟨a, w, m, d, hw, heq⟩ := hbd
    cases a with
    | nil =>
      rw [List.nil_append] at heq
      exact soeAt_eq_none ha w m d hw heq
    | cons a0 a' =>
      rw [List.cons_append, List.cons_eq_cons] at heq
      exact ih h ⟨a', w, m, d, hw, heq.2⟩

theorem scanLines_first {pre : List (List Char)}
    (hpre : ∀ l ∈ pre, lineResult l = none) {l : List Char} {v : PositionVector}
    (hl : lineResult l = some v) (rest : List (List Char)) :
    scanLines (pre ++ l :: rest) = some v := by
  induction pre with
  | nil => rw [List.nil_append, scanLines, hl]
  | cons p pre ih =>
    have hp : lineResult p = none := hpre p (List.mem_cons_self p pre)
    rw [List.cons_append, scanLines, hp]
    exact ih (fun l' hl' => hpre l' (List.mem_cons_of_mem p hl'))

theorem scanLines_none : ∀ {ls : List (List Char)},
    (∀ l ∈ ls, lineResult l = none) → scanLines ls = none := by
  intro ls
  induction ls with
  | nil => intro _; rfl
  | cons l ls ih =>
    intro h
    rw [scanLines, h l (List.mem_cons_self l ls)]
    exact ih (fun l' hl' => h l' (List.mem_cons_of_mem l hl'))

theorem lineResult_none_of {l : List Char}
    (h : candidateLine (strip l) = false ∨ extract3 (strip l) = none) :
    lineResult l = none := by
  unfold lineResult
  by_cases hskip : strip l = [] ∨ (strip l).head? = some '*'
  · rw [if_pos hskip]
  · rw [if_neg hskip]
    cases h with
    | inl hc => rw [hc]; rfl
    | inr he =>
      by_cases hc : candidateLine (strip l) = true
      · rw [if_pos hc]; exact he
      · rw [if_neg hc]

theorem parse_eq_scan_blockLines (s : List Char) :
    parse_vector_data s = scanLines (blockLines s) := by
  unfold parse_vector_data blockLines
  cases soeSearch s with
  | none => rfl
  | some m => rfl

theorem foldl_aggStep (env : List Char → FetchOutcome) :
    ∀ (l : List (List Char × List Char)) (a b : List BodyResult),
      l.foldl (aggStep env) (a, b) =
        (a ++ (l.map (fetchBody env)).filter (fun r => !(isErr r)),
         b ++ (l.map (fetchBody env)).filter (fun r => isErr r)) := by
  intro l
  induction l with
  | nil => intro a b; simp
  | cons x l ih =>
    intro a b
    rw [List.foldl_cons]
    cases hx : isErr (fetchBody env x) with
    | false =>
      have hstep : aggStep env (a, b) x = (a ++ [fetchBody env x], b) := by
        simp [aggStep, hx]
      rw [hstep, ih]
      simp [List.filter_cons, hx, List.append_assoc]
    | true =>
      have hstep : aggStep env (a, b) x = (a, b ++ [fetchBody env x]) := by
        simp [aggStep, hx]
      rw [hstep, ih]
      simp [List.filter_cons, hx, List.append_assoc]

theorem aggregate_eq (env : List Char → FetchOutcome) :
    aggregate env =
      ((CELESTIAL_BODIES.map (fetchBody env)).filter (fun r => !(isErr r)),
       (CELESTIAL_BODIES.map (fetchBody env)).filter (fun r => isErr r)) := by
  unfold aggregate
  rw [foldl_aggStep]
  simp

theorem filter_length_both (p : BodyResult → Bool) (l : List BodyResult) :
    (l.filter (fun r => !(p r))).length + (l.filter p).length = l.length := by
  induction l with
  | nil => rfl
  | cons x l ih => cases hx : p x <;> simp [List.filter_cons, hx] <;> omega

theorem fetch_response {env : List Char → FetchOutcome} {id name txt : List Char}
    (h : env id = FetchOutcome.response txt) :
    fetch_horizons_data env id name =
      match parse_vector_data txt with
      | some v => BodyResult.ok ⟨id, name, v⟩
      | none => BodyResult.err ⟨id, name, "Could not parse vector data".data⟩ := by
  unfold fetch_horizons_data
  rw [h]

theorem fetch_requestError {env : List Char → FetchOutcome} {id name m : List Char}
    (h : env id = FetchOutcome.requestError m) :
    fetch_horizons_data env id name = BodyResult.err ⟨id, name, m⟩ := by
  unfold fetch_horizons_data
  rw [h]

theorem fetch_otherError {env : List Char → FetchOutcome} {id name m : List Char}
    (h : env id = FetchOutcome.otherError m) :
    fetch_horizons_data env id name = BodyResult.err ⟨id, name, m⟩ := by
  unfold fetch_horizons_data
  rw [h]

theorem resultId_fetchBody (env : List Char → FetchOutcome)
    (b : List Char × List Char) : resultId (fetchBody env b) = b.1 := by
  cases henv : env b.1 with
  | response txt =>
    rw [show fetchBody env b = fetch_horizons_data env b.1 b.2 from rfl,
      fetch_response henv]
    cases hp : parse_vector_data txt <;> rfl
  | requestError m =>
    rw [show fetchBody env b = fetch_horizons_data env b.1 b.2 from rfl,
      fetch_requestError henv]
    rfl
  | otherError m =>
    rw [show fetchBody env b = fetch_horizons_data env b.1 b.2 from rfl,
      fetch_otherError henv]
    rfl

theorem fetchBody_congr {env env' : List Char → FetchOutcome}
    (b : List Char × List Char) (h : env b.1 = env' b.1) :
    fetchBody env b = fetchBody env' b := by
  unfold fetchBody fetch_horizons_data
  rw [h]

theorem filter_filter_own (p q : BodyResult → Bool) (l : List BodyResult) :
    (l.filter p).filter q = l.filter (fun r => p r && q r) := by
  induction l with
  | nil => rfl
  | cons x l ih => cases hp : p x <;> cases hq : q x <;> simp [List.filter_cons, hp, hq, ih]

theorem filter_map_isolate {env env' : List Char → FetchOutcome} {b0 : List Char}
    (hagree : ∀ i, i ≠ b0 → env i = env' i) (p : BodyResult → Bool) :
    ∀ l : List (List Char × List Char),
      (l.map (fetchBody env)).filter (fun r => p r && !(resultId r == b0)) =
      (l.map (fetchBody env')).filter (fun r => p r && !(resultId r == b0)) := by
  intro l
  induction l with
  | nil => rfl
  | cons b l ih =>
    by_cases hb : b.1 = b0
    · have h1 : (p (fetchBody env b) && !(resultId (fetchBody env b) == b0)) = false := by
        rw [resultId_fetchBody, hb]
        simp
      have h2 : (p (fetchBody env' b) && !(resultId (fetchBody env' b) == b0)) = false := by
        rw [resultId_fetchBody, hb]
        simp
      simp only [List.map_cons, List.filter_cons, h1, h2]
      exact ih
    · have heq : fetchBody env b = fetchBody env' b := fetchBody_congr b (hagree b.1 hb)
      simp only [List.map_cons, List.filter_cons, heq]
      cases hpb : (p (fetchBody env' b) && !(resultId (fetchBody env' b) == b0)) <;>
        simp [ih]

theorem containsSub_cons {p s : List Char} (c : Char)
    (h : containsSub p s = true) : containsSub p (c :: s) = true := by
  rw [containsSub, h, Bool.or_true]

theorem filter_not_append_perm (p : BodyResult → Bool) (l : List BodyResult) :
    ((l.filter fun r => !(p r)) ++ l.filter p).Perm l := by
  induction l with
  | nil => simp
  | cons x l ih =>
    cases hx : p x with
    | false =>
      simp only [List.filter_cons, hx, Bool.not_false, if_true, if_false, cond]
      simpa using ih.cons x
    | true =>
      simp only [List.filter_cons, hx, Bool.not_true, if_true, if_false, cond]
      exact List.perm_middle.trans (ih.cons x)

theorem aggregate_fst (env : List Char → FetchOutcome) :
    (aggregate env).1 =
      (CELESTIAL_BODIES.map (fetchBody env)).filter (fun r => !(isErr r)) := by
  rw [aggregate_eq]

theorem aggregate_snd (env : List Char → FetchOutcome) :
    (aggregate env).2 =
      (CELESTIAL_BODIES.map (fetchBody env)).filter (fun r => isErr r) := by
  rw [aggregate_eq]

/-- C1: over the static configured body list, each configured body
contributes exactly one BodyResult placed in exactly one of the two output
sequences; the two sequences are the order-preserving partition of the
per-body results by configuration order, their concatenation is a
permutation of the full result list, and their lengths sum to the
configured body count. -/
theorem C1_aggregation_partition (env : List Char → FetchOutcome) :
    (aggregate env).1 =
        (CELESTIAL_BODIES.map (fetchBody env)).filter (fun r => !(isErr r)) ∧
    (aggregate env).2 =
        (CELESTIAL_BODIES.map (fetchBody env)).filter (fun r => isErr r) ∧
    ((aggregate env).1 ++ (aggregate env).2).Perm
        (CELESTIAL_BODIES.map (fetchBody env)) ∧
    (aggregate env).1.length + (aggregate env).2.length = CELESTIAL_BODIES.length := by
  refine ⟨aggregate_fst env, aggregate_snd env, ?_, ?_⟩
  · rw [aggregate_fst, aggregate_snd]
    exact filter_not_append_perm (fun r => isErr r) _
  · rw [aggregate_fst, aggregate_snd]
    have h := filter_length_both (fun r => isErr r) (CELESTIAL_BODIES.map (fetchBody env))
    simpa using h

/-- C2 counterexample: in the block of this input, the first candidate line
(`X = Y = Z =`, which contains all three labels) fails token extraction,
yet the parser does not treat the input as a parse failure: it continues to
the next line and returns its vector, contradicting the claim that a failed
first candidate line makes the whole input a parse failure. -/
theorem C2_counterexample :
    candidateLine (strip "X = Y = Z =".data) = true ∧
    extract3 (strip "X = Y = Z =".data) = none ∧
    blockLines ("$$SOE\nX = Y = Z =\nX = 1 Y = 2 Z = 3\n$$EOE").data =
      ["X = Y = Z =".data, "X = 1 Y = 2 Z = 3".data] ∧
    parse_vector_data ("$$SOE\nX = Y = Z =\nX = 1 Y = 2 Z = 3\n$$EOE").data =
      some ⟨mkRat 1 1, mkRat 2 1, mkRat 3 1⟩ := by
  exact ⟨by decide, by decide, by decide, by decide⟩

/-- C2 (amended): the first line of the block on which the per-line step
succeeds (candidate labels present and all three tokens extracted) provides
the parser's result; lines on which the per-line step yields nothing —
including candidate lines whose extraction fails — are skipped and scanning
continues with the following lines. -/
theorem C2_first_successful_line_wins {pre : List (List Char)} {l : List Char}
    {v : PositionVector} (rest : List (List Char))
    (hpre : ∀ l' ∈ pre, lineResult l' = none) (hl : lineResult l = some v) :
    scanLines (pre ++ l :: rest) = some v :=
  scanLines_first hpre hl rest

/-- C2 witness: a failing candidate line followed by a succeeding one. -/
theorem C2_first_successful_line_wins_witness :
    scanLines (["X = Y = Z =".data] ++ "X = 1 Y = 2 Z = 3".data :: []) =
      some ⟨mkRat 1 1, mkRat 2 1, mkRat 3 1⟩ :=
  C2_first_successful_line_wins [] (by decide) (by decide)

/-- C3 counterexample: this text contains both markers, `$$SOE` before
`$$EOE`, yet the delimiter search of the parser fails and the parser
returns the sentinel, contradicting the claim that parsing fails exactly
when the markers are not both present. -/
theorem C3_counterexample :
    containsSub soeChars ("$$SOE$$EOE").data = true ∧
    containsSub eoeChars ("$$SOE$$EOE").data = true ∧
    ("$$SOE$$EOE").data = soeChars ++ eoeChars ∧
    soeSearch ("$$SOE$$EOE").data = none ∧
    parse_vector_data ("$$SOE$$EOE").data = none := by
  exact ⟨by decide, by decide, by decide, by decide, by decide⟩

/-- C3 (amended): the parser proceeds past delimiter location to line
scanning exactly when the text contains `$$SOE` followed by a (possibly
empty) whitespace run ending in a newline, then any characters, then a
newline immediately followed by `$$EOE`; mere presence of both markers is
not sufficient. -/
theorem C3_block_location_iff (s : List Char) :
    (soeSearch s).isSome = true ↔ blockDecomp s := by
  constructor
  · intro h
    cases hs : soeSearch s with
    | none => rw [hs] at h; simp at h
    | some m => exact soeSearch_some_blockDecomp hs
  · intro hbd
    cases hs : soeSearch s with
    | none => exact absurd hbd (soeSearch_none_blockDecomp hs)
    | some m => rfl

/-- C4: the process exits with code 0 iff the snapshot write succeeds,
regardless of the per-body outcomes; an I/O error on the write gives exit
code 1. -/
theorem C4_exit_code (env : List Char → FetchOutcome) (w : WriteOutcome) :
    ((main_run env w).2 = 0 ↔ w = WriteOutcome.written) ∧
    (∀ m, (main_run env (WriteOutcome.ioError m)).2 = 1) := by
  constructor
  · cases w with
    | written => simp [main_run, save_data]
    | ioError m => simp [main_run, save_data]
  · intro m
    rfl

/-- C5: any caught exception during one body's fetch becomes a failure
BodyResult carrying the error's string representation; the aggregation
still produces one result per configured body for every environment; and
changing the transport behaviour of one body does not change any other
body's results in either output sequence. -/
theorem C5_failure_isolation :
    (∀ (env : List Char → FetchOutcome) (id name m : List Char),
      env id = FetchOutcome.requestError m ∨ env id = FetchOutcome.otherError m →
        fetch_horizons_data env id name = BodyResult.err ⟨id, name, m⟩) ∧
    (∀ env : List Char → FetchOutcome,
      (aggregate env).1.length + (aggregate env).2.length = CELESTIAL_BODIES.length) ∧
    (∀ (env env' : List Char → FetchOutcome) (b0 : List Char),
      (∀ i, i ≠ b0 → env i = env' i) →
        (aggregate env).1.filter (fun r => !(resultId r == b0)) =
          (aggregate env').1.filter (fun r => !(resultId r == b0)) ∧
        (aggregate env).2.filter (fun r => !(resultId r == b0)) =
          (aggregate env').2.filter (fun r => !(resultId r == b0))) := by
  refine ⟨?_, ?_, ?_⟩
  · intro env id name m h
    cases h with
    | inl h => exact fetch_requestError h
    | inr h => exact fetch_otherError h
  · intro env
    rw [aggregate_fst, aggregate_snd]
    have h := filter_length_both (fun r => isErr r) (CELESTIAL_BODIES.map (fetchBody env))
    simpa using h
  · intro env env' b0 hagree
    rw [aggregate_fst, aggregate_snd, aggregate_fst, aggregate_snd]
    constructor
    · rw [filter_filter_own, filter_filter_own]
      exact filter_map_isolate hagree (fun r => !(isErr r)) CELESTIAL_BODIES
    · rw [filter_filter_own, filter_filter_own]
      exact filter_map_isolate hagree (fun r => isErr r) CELESTIAL_BODIES

/-- C5 witness: concrete transport errors are converted to failure results,
every configured body is still attempted, and perturbing body 199's
transport leaves the other bodies' results unchanged. -/
theorem C5_failure_isolation_witness :
    fetch_horizons_data env_all_timeout "199".data "Mercury".data =
      BodyResult.err ⟨"199".data, "Mercury".data, "timeout".data⟩ ∧
    (aggregate env_all_timeout).1.length + (aggregate env_all_timeout).2.length =
      CELESTIAL_BODIES.length ∧
    (aggregate env_all_timeout).1.filter (fun r => !(resultId r == "199".data)) =
      (aggregate env_one_boom).1.filter (fun r => !(resultId r == "199".data)) :=
  ⟨C5_failure_isolation.1 env_all_timeout _ _ _ (Or.inl rfl),
   C5_failure_isolation.2.1 env_all_timeout,
   (C5_failure_isolation.2.2 env_all_timeout env_one_boom ("199".data)
      (fun i hi => by simp [env_all_timeout, env_one_boom, hi])).1⟩

/-- C6: on the spec's sample response text, the parser returns the vector
with x = 9.8E-01 = 98/100, y = 1.9E-01 = 19/100 and
z = -1.6E-05 = -16/1000000; in particular the negative sign abutting the
`Z =` label with no intervening space is accepted. -/
theorem C6_concrete_parse :
    parse_vector_data ("$$SOE\n X = 9.8E-01 Y = 1.9E-01 Z =-1.6E-05\n$$EOE").data =
      some ⟨mkRat 98 100, mkRat 19 100, mkRat (-16) 1000000⟩ := by
  decide

/-- C7: whenever at least one of the two delimiter markers does not occur
in the response text, the parser returns the sentinel (and, being a total
function into an option type, lets no exception escape). -/
theorem C7_missing_marker_none (s : List Char)
    (h : containsSub soeChars s = false ∨ containsSub eoeChars s = false) :
    parse_vector_data s = none := by
  cases hs : soeSearch s with
  | some m =>
    exfalso
    obtain ⟨a, w, mm, d, hw, heq⟩ := soeSearch_some_blockDecomp hs
    cases h with
    | inl hsoe =>
      have hc : containsSub soeChars s = true := by
        rw [heq]
        exact containsSub_append_left a
          (containsSub_of_startsWith (startsWith_append _ _))
      simp [hc] at hsoe
    | inr heoe =>
      have h1 : containsSub eoeChars (eoeChars ++ d) = true :=
        containsSub_of_startsWith (startsWith_append _ _)
      have h2 : containsSub eoeChars (eoeTail ++ d) = true := by
        rw [show eoeTail ++ d = '\n' :: (eoeChars ++ d) from rfl]
        exact containsSub_cons _ h1
      have h3 : containsSub eoeChars (mm ++ eoeTail ++ d) = true := by
        rw [List.append_assoc]
        exact containsSub_append_left mm h2
      have h4 : containsSub eoeChars ('\n' :: (mm ++ eoeTail ++ d)) = true :=
        containsSub_cons _ h3
      have hc : containsSub eoeChars s = true := by
        rw [heq]
        exact containsSub_append_left a
          (containsSub_append_left soeChars (containsSub_append_left w h4))
      simp [hc] at heoe
  | none =>
    unfold parse_vector_data
    rw [hs]

/-- C7 witness: a text without `$$SOE` parses to the sentinel. -/
theorem C7_missing_marker_none_witness :
    containsSub soeChars "hello world".data = false ∧
    parse_vector_data "hello world".data = none :=
  ⟨by decide, C7_missing_marker_none _ (Or.inl (by decide))⟩

/-- C8: when every line of the delimited block either lacks one of the
three labels or fails coordinate extraction, the parser returns the
sentinel; the result type itself admits only a complete three-component
vector or the sentinel, never a partial vector. -/
theorem C8_no_partial_vector (s : List Char)
    (h : ∀ l ∈ blockLines s,
      candidateLine (strip l) = false ∨ extract3 (strip l) = none) :
    parse_vector_data s = none := by
  rw [parse_eq_scan_blockLines]
  exact scanLines_none (fun l hl => lineResult_none_of (h l hl))

/-- C8 witness: a block whose only data line omits the `Z` label. -/
theorem C8_no_partial_vector_witness :
    (∀ l ∈ blockLines ("$$SOE\n X = 1.0 Y = 2.0\n$$EOE").data,
      candidateLine (strip l) = false ∨ extract3 (strip l) = none) ∧
    parse_vector_data ("$$SOE\n X = 1.0 Y = 2.0\n$$EOE").data = none :=
  ⟨by decide, C8_no_partial_vector _ (by decide)⟩

/-- C9 counterexample: on a successful fetch whose text does not parse, the
failure message produced by the code is `Could not parse vector data`
(capitalized), which differs from the claimed exact message
`could not parse vector data`. -/
theorem C9_counterexample :
    env_parse_fail "199".data = FetchOutcome.response [] ∧
    parse_vector_data [] = none ∧
    fetch_horizons_data env_parse_fail "199".data "Mercury".data =
      BodyResult.err ⟨"199".data, "Mercury".data, "Could not parse vector data".data⟩ ∧
    "Could not parse vector data".data ≠ "could not parse vector data".data := by
  exact ⟨rfl, rfl, by decide, by decide⟩

/-- C9 (amended): whenever a body's HTTP fetch succeeds but the parser
returns the sentinel, the resulting BodyResult is the failure variant
carrying exactly the fixed message `Could not parse vector data`
(capitalized), distinct from the transport-failure case where the message
is the caught error's string representation. -/
theorem C9_parse_failure_message (env : List Char → FetchOutcome)
    (id name txt : List Char) (henv : env id = FetchOutcome.response txt)
    (hp : parse_vector_data txt = none) :
    fetch_horizons_data env id name =
      BodyResult.err ⟨id, name, "Could not parse vector data".data⟩ := by
  rw [fetch_response henv, hp]

/-- C9 witness: the amended message on a concrete failing parse. -/
theorem C9_parse_failure_message_witness :
    fetch_horizons_data env_parse_fail "299".data "Venus".data =
      BodyResult.err ⟨"299".data, "Venus".data, "Could not parse vector data".data⟩ :=
  C9_parse_failure_message env_parse_fail ("299".data) ("Venus".data) [] rfl rfl

/-- C10: the embedded parser is a total function into an option type —
every input yields either the sentinel or a complete vector, and equal
inputs yield equal results (determinism). -/
theorem C10_parse_total_deterministic (s t : List Char) (h : s = t) :
    parse_vector_data s = parse_vector_data t ∧
    (parse_vector_data s = none ∨ ∃ v, parse_vector_data s = some v) := by
  subst h
  refine ⟨rfl, ?_⟩
  cases hp : parse_vector_data s with
  | none => exact Or.inl rfl
  | some v => exact Or.inr ⟨v, rfl⟩

/-- C10 witness: determinism and totality at a concrete input. -/
theorem C10_parse_total_deterministic_witness :
    parse_vector_data "abc".data = parse_vector_data "abc".data ∧
    (parse_vector_data "abc".data = none ∨
      ∃ v, parse_vector_data "abc".data = some v) :=
  C10_parse_total_deterministic ("abc".data) ("abc".data) rfl
